import Mathlib

/-!
Verification of the numerical analysis utilities of
`AstrocyteNeuron_Interactions/Networks/Neuro_Glia_network/plot_NG_network.py`.

Numeric model: the Python code computes with IEEE floats.  Here sample values
are modelled as rationals (`ℚ`), on which every arithmetic operation of the
analysed code paths is exact, except for the Gaussian kernel and the
standard-deviation branch which need `Real.exp` / `Real.sqrt` and are modelled
over `ℝ`.  A float NaN produced by a division by zero is modelled by
`Option.none` where the distinction matters (`variance`); numpy emits only a
RuntimeWarning there and returns NaN, it does not raise.
-/

/-- Python `int(q)` applied to an exact value: truncation toward zero
(`int(1.5) = 1`, `int(-1.5) = -1`). -/
def pyInt (q : ℚ) : ℤ := if 0 ≤ q then ⌊q⌋ else -⌊-q⌋

/-- numpy `np.round` applied to an exactly representable value:
round half to even (`np.round(0.5) = 0`, `np.round(1.5) = 2`). -/
def npRound (q : ℚ) : ℤ :=
  if q - ⌊q⌋ < 1/2 then ⌊q⌋
  else if 1/2 < q - ⌊q⌋ then ⌊q⌋ + 1
  else if ⌊q⌋ % 2 = 0 then ⌊q⌋ else ⌊q⌋ + 1

/-- numpy `np.mean(x)` of a rational sample list: `x.sum() / len(x)`. -/
def npMean (x : List ℚ) : ℚ := x.sum / x.length

/-- `variance` (plot_NG_network.py, lines 116-137):
`x = np.array(x); N = len(x); mean = np.mean(x);
var = ((x-mean)**2); var = var.sum()/(N*(N-1))`.
When `N*(N-1) = 0` (fewer than two samples) the float division `0.0/0` yields
NaN, modelled as `none`; otherwise the value is the exact rational. -/
def variance (x : List ℚ) : Option ℚ :=
  if x.length * (x.length - 1) = 0 then none
  else some ((x.map (fun v => (v - npMean x) ^ 2)).sum /
    ((x.length * (x.length - 1) : ℕ) : ℚ))

/-- Calling `variance` as a Python expression: the body of `variance` contains
no `raise` statement and every operation in it (`np.array`, `len`, `np.mean`,
elementwise arithmetic, `sum`, float division) is total on numeric arrays —
division by zero produces NaN with a RuntimeWarning, not an exception — so the
call always returns normally with the value of `variance`. -/
def varianceRun (x : List ℚ) : Except String (Option ℚ) := Except.ok (variance x)

/-- One iteration of the loop body of `blocking` (plot_NG_network.py, lines
160-173): `N = len(x); if N % 2 != 0: N = N-1; index = np.arange(N);
odd = index[index%2==0]; even = index[index%2!=0]; x1 = x[odd]; x2 = x[even];
x_block = (x1+x2)/2.0`. -/
def blockStep (x : List ℚ) : List ℚ :=
  let N := if x.length % 2 = 0 then x.length else x.length - 1
  let odd := (List.range N).filter (fun i => i % 2 = 0)
  let even := (List.range N).filter (fun i => ¬ i % 2 = 0)
  let x1 := odd.map (fun i => x.getD i 0)
  let x2 := even.map (fun i => x.getD i 0)
  List.zipWith (fun a b => (a + b) / 2) x1 x2

/-- The loop of `blocking`: `for time in range(k)` append
`variance(x_block)` and replace `x` by `x_block`. -/
def blockingAux : List ℚ → ℕ → List (Option ℚ)
  | _, 0 => []
  | x, n + 1 =>
    let xb := blockStep x
    variance xb :: blockingAux xb n

/-- `blocking` (plot_NG_network.py, lines 139-178). -/
def blocking (x : List ℚ) (k : ℕ) : List (Option ℚ) := blockingAux x k

/-- numpy `np.unique` on an integer index array: the distinct values present,
in ascending order — the ascending enumeration of `0 .. max` restricted to the
values occurring in `l`. -/
def npUnique (l : List ℕ) : List ℕ :=
  (List.range (l.foldr max 0 + 1)).filter (fun i => l.contains i)

/-- `neurons_firing` (plot_NG_network.py, lines 74-114): for each distinct
neuron index (`np.unique(neurons_i)`, ascending), select the spike times of
that neuron (`t_spikes[neurons_i==ind]`), keep those with
`spk > time_start and spk < time_stop` (both comparisons strict in the
source), and divide the count by `time_stop - time_start`.  The loop that
appends one rate per index is rendered as a map. -/
def neurons_firing (tSpikes : List ℚ) (neuronsI : List ℕ)
    (timeStart timeStop : ℚ) : List ℚ :=
  (npUnique neuronsI).map (fun ind =>
    (((((tSpikes.zip neuronsI).filter (fun p => p.2 = ind)).map Prod.fst).filter
        (fun spk => timeStart < spk ∧ spk < timeStop)).length : ℚ) /
      (timeStop - timeStart))

/-! Heap model for the frame claim about `blocking`.  A numpy heap is a list
of array cells; `allocA` appends a fresh cell (what `np.array(x)`, fancy
indexing `x[odd]` and elementwise arithmetic all do — each creates a new
array), `readA` reads a cell and `writeA` overwrites one in place (the
operation an in-place numpy update such as `x[i] = v` or `+=` would perform;
the body of `blocking` never uses it). -/

/-- Allocate a fresh array cell, returning its address. -/
def allocA (h : List (List ℚ)) (v : List ℚ) : ℕ × List (List ℚ) :=
  (h.length, h ++ [v])

/-- Read the array stored at address `r`. -/
def readA (h : List (List ℚ)) (r : ℕ) : List ℚ := h.getD r []

/-- Overwrite the array stored at address `r` in place.  Present in the model
because numpy has in-place updates; unused by `blockingH` because the source
of `blocking` performs none. -/
def writeA (h : List (List ℚ)) (r : ℕ) (v : List ℚ) : List (List ℚ) :=
  h.set r v

/-- Heap version of one `blocking` iteration: `x1 = x[odd]`, `x2 = x[even]`
and `x_block = (x1+x2)/2.0` each allocate a fresh array; the address of
`x_block` is returned.  No existing cell is written. -/
def blockStepH (h : List (List ℚ)) (xr : ℕ) : ℕ × List (List ℚ) :=
  let x := readA h xr
  let N := if x.length % 2 = 0 then x.length else x.length - 1
  let odd := (List.range N).filter (fun i => i % 2 = 0)
  let even := (List.range N).filter (fun i => ¬ i % 2 = 0)
  let x1 := odd.map (fun i => x.getD i 0)
  let x2 := even.map (fun i => x.getD i 0)
  let xb := List.zipWith (fun a b => (a + b) / 2) x1 x2
  (h.length + 2, h ++ [x1] ++ [x2] ++ [xb])

/-- Heap version of the `blocking` loop; `variance` allocates only inside its
own frame and writes nothing, so it is applied as a pure function to the
blocked array. -/
def blockingLoopH : ℕ → List (List ℚ) → ℕ → List (Option ℚ) × List (List ℚ)
  | 0, h, _ => ([], h)
  | n + 1, h, xr =>
    let p := blockStepH h xr
    let v := variance (readA p.2 p.1)
    let rest := blockingLoopH n p.2 p.1
    (v :: rest.1, rest.2)

/-- Heap version of `blocking`: `x = np.array(x)` first copies the array of the caller
into a fresh cell, then the loop runs on that copy. -/
def blockingH (h : List (List ℚ)) (xr k : ℕ) :
    List (Option ℚ) × List (List ℚ) :=
  let p := allocA h (readA h xr)
  blockingLoopH k p.2 p.1

/-! The smoothing and standard-error code paths involve `np.exp` and
`np.sqrt`, hence are modelled over `ℝ`. -/

/-- The Gaussian window of `smoothing_b` (plot_NG_network.py, lines 55-61):
`width_dt = int(np.round(2*width/ddt))`, then
`np.exp(-np.arange(-width_dt, width_dt+1)**2 * 1./(2*(width/ddt)**2))`.
For `width_dt < 0` the `arange` is empty.  `np.round` returns an
integer-valued float, so the outer `int` is the identity on it. -/
noncomputable def gaussianWindow (width ddt : ℚ) : List ℝ :=
  let width_dt : ℤ := npRound (2 * width / ddt)
  if width_dt < 0 then []
  else (List.range (2 * width_dt.toNat + 1)).map (fun (j : ℕ) =>
    Real.exp (-(((j : ℝ) - (width_dt.toNat : ℝ)) ^ 2) *
      (1 / (2 * (((width / ddt : ℚ)) : ℝ) ^ 2))))

/-- The flat window of `smoothing_b` (plot_NG_network.py, lines 62-68):
`width_dt = int(width / 2 / ddt)*2 + 1; window = np.ones(width_dt)`
(the `logger.info` width-adjustment report has no effect on the value). -/
noncomputable def flatWindow (width ddt : ℚ) : List ℝ :=
  List.replicate (2 * pyInt (width / 2 / ddt) + 1).toNat 1

/-- The window dispatch of `smoothing_b` (plot_NG_network.py, lines 55-70):
an unknown window name raises `NotImplementedError`. -/
noncomputable def rawWindow (window : String) (width ddt : ℚ) :
    Except String (List ℝ) :=
  if window = "gaussian" then Except.ok (gaussianWindow width ddt)
  else if window = "flat" then Except.ok (flatWindow width ddt)
  else Except.error ("Unknown pre-defined window " ++ window)

/-- numpy `np.convolve(a, v)` in the default full mode:
output index `k` holds `sum_i a[i] * v[k-i]`, out-of-range factors reading as
zero (implicit zero padding). -/
noncomputable def convolveFull (a v : List ℝ) : List ℝ :=
  (List.range (a.length + v.length - 1)).map (fun k =>
    ((List.range a.length).map (fun i =>
      if i ≤ k then a.getD i 0 * v.getD (k - i) 0 else 0)).sum)

/-- numpy `np.convolve(a, v, same mode)`: the centered slice of the full
convolution of length `max(len(a), len(v))`, starting at
`(min(len(a), len(v)) - 1) // 2`. -/
noncomputable def convolveSame (a v : List ℝ) : List ℝ :=
  ((convolveFull a v).drop ((min a.length v.length - 1) / 2)).take
    (max a.length v.length)

/-- `smoothing_b` (plot_NG_network.py, lines 19-72): build the window, then
`np.convolve(x, window * 1./sum(window), same mode)`. -/
noncomputable def smoothing_b (x : List ℝ) (window : String) (width ddt : ℚ) :
    Except String (List ℝ) :=
  (rawWindow window width ddt).map (fun w =>
    convolveSame x (w.map (fun v => v * (1 / w.sum))))

/-- The normalized kernel `window * 1./sum(window)` that `smoothing_b`
passes to the convolution (plot_NG_network.py, line 72). -/
noncomputable def normKernel (window : String) (width ddt : ℚ) :
    Except String (List ℝ) :=
  (rawWindow window width ddt).map (fun w => w.map (fun v => v * (1 / w.sum)))

/-- numpy mean of a real sample list. -/
noncomputable def npMeanR (l : List ℝ) : ℝ := l.sum / l.length

/-- numpy `.std()` (population standard deviation, `ddof=0`). -/
noncomputable def npStdR (l : List ℝ) : ℝ :=
  Real.sqrt ((l.map (fun v => (v - npMeanR l) ^ 2)).sum / l.length)

/-- numpy `.max()` of a nonempty array (0 as the unused empty default). -/
noncomputable def npMax : List ℝ → ℝ
  | [] => 0
  | a :: t => t.foldl max a

/-- numpy `.min()` of a nonempty array (0 as the unused empty default). -/
noncomputable def npMin : List ℝ → ℝ
  | [] => 0
  | a :: t => t.foldl min a

/-- `standard_error_I` (plot_NG_network.py, lines 180-207):
`N_window = int(N/N_mean)`; for `i in range(N_mean)` the slice
`I[i*N_window:(i+1)*N_window]` contributes its mean to `I_list` and its
(population) standard deviation to `I_list_err` — the appending loop is
rendered as two maps over `range N_mean`; then
`error = (I_list.max()-I_list.min())/2` when `N_mean < 30`, else
`np.sqrt((I_list_err**2).sum())/len`; returns `(I_list.mean(), error)`. -/
noncomputable def standard_error_I (I : List ℝ) (N_mean : ℕ) : ℝ × ℝ :=
  let N_window := I.length / N_mean
  let I_list := (List.range N_mean).map (fun i =>
    npMeanR ((I.drop (i * N_window)).take N_window))
  let I_list_err := (List.range N_mean).map (fun i =>
    npStdR ((I.drop (i * N_window)).take N_window))
  let error :=
    if N_mean < 30 then (npMax I_list - npMin I_list) / 2
    else Real.sqrt ((I_list_err.map (fun v => v * v)).sum) / I_list_err.length
  (npMeanR I_list, error)

/-- The sequence of per-window means described for `standard_error_I`:
the `i`-th entry is the mean of `I[i*W : (i+1)*W]` with
`W = len(I) / N_mean` (integer division). -/
noncomputable def windowMeans (I : List ℝ) (N_mean : ℕ) : List ℝ :=
  (List.range N_mean).map (fun i =>
    npMeanR ((I.drop (i * (I.length / N_mean))).take (I.length / N_mean)))

/-! Helper lemmas. -/

lemma blockingAux_length : ∀ (k : ℕ) (x : List ℚ), (blockingAux x k).length = k := by
  intro k
  induction k with
  | zero => intro x; rfl
  | succ n ih => intro x; simp [blockingAux, ih]

lemma blockingAux_getD : ∀ (k : ℕ) (x : List ℚ) (i : ℕ), i < k →
    (blockingAux x k).getD i none = variance (blockStep^[i + 1] x) := by
  intro k
  induction k with
  | zero => intro x i hi; omega
  | succ n ih =>
    intro x i hi
    cases i with
    | zero => simp [blockingAux]
    | succ j =>
      have h := ih (blockStep x) j (by omega)
      simpa [blockingAux, Function.iterate_succ_apply] using h

/-- C2: for every finite numeric sequence of length at least two, `variance`
equals `sum((x_i - mean(x))^2) / (N*(N-1))`; in particular it is `0` on
`[1,1,1,1]` and `1` on `[0,2]`. -/
theorem variance_spec :
    (∀ x : List ℚ, 2 ≤ x.length →
      variance x = some ((x.map (fun v => (v - npMean x) ^ 2)).sum /
        ((x.length : ℚ) * ((x.length : ℚ) - 1)))) ∧
    variance [1, 1, 1, 1] = some 0 ∧ variance [0, 2] = some 1 := by
  refine ⟨?_, by norm_num [variance, npMean], by norm_num [variance, npMean]⟩
  intro x hx
  have h1 : ¬ x.length * (x.length - 1) = 0 :=
    Nat.mul_ne_zero (by omega) (by omega)
  have h2 : ((x.length * (x.length - 1) : ℕ) : ℚ) =
      (x.length : ℚ) * ((x.length : ℚ) - 1) := by
    have hle : 1 ≤ x.length := by omega
    push_cast [Nat.cast_sub hle]
    ring
  simp only [variance, if_neg h1, h2]

/-- C2 witness: the general formula applied to the concrete input `[0,2]`. -/
theorem variance_spec_witness :
    2 ≤ ([0, 2] : List ℚ).length ∧
    variance [0, 2] = some ((([0, 2] : List ℚ).map
      (fun v => (v - npMean [0, 2]) ^ 2)).sum /
        ((([0, 2] : List ℚ).length : ℚ) * ((([0, 2] : List ℚ).length : ℚ) - 1))) :=
  ⟨by decide, variance_spec.1 [0, 2] (by decide)⟩

/-- C1: `blocking(x, k)` returns exactly `k` variance estimates, the `i`-th
being the variance of the sequence obtained from `x` by `i+1` repetitions of
the drop-odd-tail / split-by-index-parity / pairwise-average step. -/
theorem blocking_spec (x : List ℚ) (k : ℕ) :
    (blocking x k).length = k ∧
    ∀ i, i < k → (blocking x k).getD i none = variance (blockStep^[i + 1] x) :=
  ⟨blockingAux_length k x, fun i hi => blockingAux_getD k x i hi⟩

/-- C1 witness: the blocking specification at the concrete input
`[1,2,3,4]` with `k = 2`. -/
theorem blocking_spec_witness :
    (blocking [1, 2, 3, 4] 2).length = 2 ∧
    ∀ i, i < 2 → (blocking [1, 2, 3, 4] 2).getD i none =
      variance (blockStep^[i + 1] [1, 2, 3, 4]) :=
  blocking_spec [1, 2, 3, 4] 2

/-- C3 counterexample: with a single sample, the call to `variance` returns
normally (`Except.ok`), carrying the NaN produced by the division by zero; it
does not fail with an error. -/
theorem variance_short_input_ce : varianceRun [(0 : ℚ)] = Except.ok none := rfl

/-- C3 (amended): for every input with fewer than two samples, `variance`
does not raise; the call returns normally and its value is the undefined
(NaN, modelled `none`) result of the division by `N*(N-1) = 0`. -/
theorem variance_short_input (x : List ℚ) (h : x.length < 2) :
    varianceRun x = Except.ok none := by
  have h0 : x.length * (x.length - 1) = 0 :=
    Nat.mul_eq_zero.mpr (Or.inr (by omega))
  simp [varianceRun, variance, h0]

/-- C3 witness: the amended statement at the concrete input `[0]`. -/
theorem variance_short_input_witness :
    ([(0 : ℚ)] : List ℚ).length < 2 ∧ varianceRun [(0 : ℚ)] = Except.ok none :=
  ⟨by decide, variance_short_input [(0 : ℚ)] (by decide)⟩

lemma readA_append_lt (h t : List (List ℚ)) (i : ℕ) (hi : i < h.length) :
    readA (h ++ t) i = readA h i := by
  unfold readA
  exact List.getD_append h t [] i hi

lemma readA_concat (A : List (List ℚ)) (v : List ℚ) (n : ℕ)
    (hn : n = A.length) : readA (A ++ [v]) n = v := by
  subst hn
  simp [readA, List.getD_append_right _ _ _ _ (le_refl A.length)]

lemma blockStepH_length (h : List (List ℚ)) (xr : ℕ) :
    ((blockStepH h xr).2).length = h.length + 3 := by
  simp [blockStepH]

lemma blockStepH_preserves (h : List (List ℚ)) (xr i : ℕ)
    (hi : i < h.length) : readA (blockStepH h xr).2 i = readA h i := by
  simp only [blockStepH]
  rw [List.append_assoc, List.append_assoc]
  exact readA_append_lt h _ i hi

lemma blockStepH_read (h : List (List ℚ)) (xr : ℕ) :
    readA (blockStepH h xr).2 (blockStepH h xr).1 = blockStep (readA h xr) := by
  simp only [blockStepH, blockStep]
  exact readA_concat _ _ _ (by simp)

lemma blockingLoopH_preserves : ∀ (n : ℕ) (h : List (List ℚ)) (r i : ℕ),
    i < h.length → readA (blockingLoopH n h r).2 i = readA h i := by
  intro n
  induction n with
  | zero => intro h r i hi; rfl
  | succ m ih =>
    intro h r i hi
    have hlen : i < ((blockStepH h r).2).length := by
      rw [blockStepH_length]; omega
    simp only [blockingLoopH]
    exact (ih _ _ i hlen).trans (blockStepH_preserves h r i hi)

lemma blockingLoopH_fst : ∀ (n : ℕ) (h : List (List ℚ)) (r : ℕ),
    (blockingLoopH n h r).1 = blockingAux (readA h r) n := by
  intro n
  induction n with
  | zero => intro h r; rfl
  | succ m ih =>
    intro h r
    simp only [blockingLoopH, blockingAux, ih, blockStepH_read]

lemma blockingH_fst (h : List (List ℚ)) (xr k : ℕ) :
    (blockingH h xr k).1 = blocking (readA h xr) k := by
  simp only [blockingH, allocA, blocking, blockingLoopH_fst]
  rw [readA_concat h (readA h xr) h.length rfl]

/-- C9: running `blocking` in the heap model leaves the array cell of the caller
unchanged — the source first copies the input (`x = np.array(x)`) and every
subsequent operation allocates a fresh array, none writes in place. -/
theorem blocking_frame (h : List (List ℚ)) (xr k : ℕ) (hxr : xr < h.length) :
    readA (blockingH h xr k).2 xr = readA h xr := by
  simp only [blockingH, allocA]
  have h1 : xr < (h ++ [readA h xr]).length := by
    simp only [List.length_append, List.length_cons, List.length_nil]
    omega
  rw [blockingLoopH_preserves k (h ++ [readA h xr]) h.length xr h1]
  exact readA_append_lt h [readA h xr] xr hxr

/-- C9 witness: the frame property at a concrete one-cell heap holding
`[1,2,3,4]`, with two blocking iterations. -/
theorem blocking_frame_witness :
    0 < ([[(1 : ℚ), 2, 3, 4]] : List (List ℚ)).length ∧
    readA (blockingH [[(1 : ℚ), 2, 3, 4]] 0 2).2 0 =
      readA [[(1 : ℚ), 2, 3, 4]] 0 :=
  ⟨by decide, blocking_frame [[(1 : ℚ), 2, 3, 4]] 0 2 (by decide)⟩

lemma mem_foldr_max (l : List ℕ) (i : ℕ) (hi : i ∈ l) : i ≤ l.foldr max 0 := by
  induction l with
  | nil => cases hi
  | cons a t ih =>
    simp only [List.foldr_cons]
    rcases List.mem_cons.mp hi with h | h
    · subst h; exact le_max_left _ _
    · exact le_trans (ih h) (le_max_right _ _)

lemma npUnique_sorted (l : List ℕ) : List.Pairwise (· < ·) (npUnique l) :=
  (List.pairwise_lt_range _).filter _

lemma npUnique_mem (l : List ℕ) (i : ℕ) : i ∈ npUnique l ↔ i ∈ l := by
  simp only [npUnique, List.mem_filter, List.mem_range]
  constructor
  · rintro ⟨-, hc⟩
    simpa [List.contains] using hc
  · intro hm
    refine ⟨Nat.lt_succ_of_le (mem_foldr_max l i hm), ?_⟩
    simpa [List.contains] using hm

lemma spike_count_eq (l : List (ℚ × ℕ)) (ind : ℕ) (t0 t1 : ℚ) :
    (((l.filter (fun p => p.2 = ind)).map Prod.fst).filter
        (fun spk => t0 < spk ∧ spk < t1)).length
    = (l.filter (fun p => p.2 = ind ∧ t0 < p.1 ∧ p.1 < t1)).length := by
  induction l with
  | nil => rfl
  | cons p t ih =>
    by_cases h1 : p.2 = ind
    · by_cases h2 : t0 < p.1 ∧ p.1 < t1
      · simp [List.filter_cons, h1, h2] at ih ⊢
        exact ih
      · simp [List.filter_cons, h1, h2] at ih ⊢
        exact ih
    · simp [List.filter_cons, h1] at ih ⊢
      exact ih

/-- C6 counterexample: a spike exactly at the window start is not counted —
both comparisons in the source are strict, so the window is the open interval
rather than `[t0, t1)`.  One spike of neuron 0 at time 0 in the window
`(0, 1)` yields rate 0, where the claim predicts `[1]`. -/
theorem neurons_firing_boundary_ce :
    neurons_firing [(0 : ℚ)] [0] 0 1 = [0] ∧
    neurons_firing [(0 : ℚ)] [0] 0 1 ≠ [1] := by
  have h : neurons_firing [(0 : ℚ)] [0] 0 1 = [0] := by
    norm_num [neurons_firing, npUnique, List.range_succ]
  refine ⟨h, ?_⟩
  rw [h]
  intro hc
  simp at hc

/-- C6 (amended): `neurons_firing` returns one rate per distinct neuron
index, in ascending order (the index list is strictly sorted and carries
exactly the indices present in the input), each rate being the count of the spikes
of that neuron falling strictly inside the open interval
`(t0, t1)` divided by `t1 - t0`. -/
theorem neurons_firing_spec (tS : List ℚ) (nI : List ℕ) (t0 t1 : ℚ) :
    neurons_firing tS nI t0 t1 =
      (npUnique nI).map (fun ind =>
        (((tS.zip nI).filter
            (fun p => p.2 = ind ∧ t0 < p.1 ∧ p.1 < t1)).length : ℚ) /
          (t1 - t0)) ∧
    List.Pairwise (· < ·) (npUnique nI) ∧
    (∀ ind, ind ∈ npUnique nI ↔ ind ∈ nI) := by
  refine ⟨?_, npUnique_sorted nI, fun ind => npUnique_mem nI ind⟩
  unfold neurons_firing
  apply List.map_congr_left
  intro ind _
  rw [spike_count_eq]

lemma rawWindow_gaussian (width ddt : ℚ) :
    rawWindow "gaussian" width ddt = Except.ok (gaussianWindow width ddt) := by
  unfold rawWindow
  rw [if_pos rfl]

lemma rawWindow_flat (width ddt : ℚ) :
    rawWindow "flat" width ddt = Except.ok (flatWindow width ddt) := by
  unfold rawWindow
  rw [if_neg (by decide), if_pos rfl]

lemma rawWindow_unknown (window : String) (width ddt : ℚ)
    (h1 : window ≠ "gaussian") (h2 : window ≠ "flat") :
    rawWindow window width ddt =
      Except.error ("Unknown pre-defined window " ++ window) := by
  unfold rawWindow
  rw [if_neg h1, if_neg h2]

lemma sum_map_mul_right (l : List ℝ) (c : ℝ) :
    (l.map (fun v => v * c)).sum = l.sum * c := by
  induction l with
  | nil => simp
  | cons a t ih =>
    simp only [List.map_cons, List.sum_cons, ih]
    ring

lemma npRound_nonneg (q : ℚ) (hq : 0 ≤ q) : 0 ≤ npRound q := by
  have h0 : (0 : ℤ) ≤ ⌊q⌋ := Int.floor_nonneg.mpr hq
  unfold npRound
  split_ifs <;> omega

lemma pyInt_nonneg (q : ℚ) (hq : 0 ≤ q) : 0 ≤ pyInt q := by
  unfold pyInt
  rw [if_pos hq]
  exact Int.floor_nonneg.mpr hq

lemma gaussianWindow_sum_pos (width ddt : ℚ) (hw : 0 < width) (hd : 0 < ddt) :
    0 < (gaussianWindow width ddt).sum := by
  have hnn : 0 ≤ npRound (2 * width / ddt) :=
    npRound_nonneg _ (by positivity)
  unfold gaussianWindow
  rw [if_neg (not_lt.mpr hnn)]
  apply List.sum_pos
  · intro y hy
    obtain ⟨j, -, rfl⟩ := List.mem_map.mp hy
    exact Real.exp_pos _
  · intro hcon
    have hlen := congrArg List.length hcon
    simp at hlen

/-- C7: for every window name other than `gaussian` and `flat`,
`smoothing_b` fails with the unsupported-kernel error
(`NotImplementedError` in the source) and produces no smoothed signal. -/
theorem smoothing_unknown_window (x : List ℝ) (window : String)
    (width ddt : ℚ) (h1 : window ≠ "gaussian") (h2 : window ≠ "flat") :
    smoothing_b x window width ddt =
      Except.error ("Unknown pre-defined window " ++ window) := by
  simp [smoothing_b, rawWindow_unknown window width ddt h1 h2, Except.map]

/-- C7 witness: the unsupported-kernel error at the concrete window name
`box`. -/
theorem smoothing_unknown_window_witness :
    ("box" : String) ≠ "gaussian" ∧ ("box" : String) ≠ "flat" ∧
    smoothing_b [] "box" 1 1 =
      Except.error ("Unknown pre-defined window " ++ "box") :=
  ⟨by decide, by decide,
    smoothing_unknown_window [] "box" 1 1 (by decide) (by decide)⟩

/-- C8: for both kernel shapes (positive width and sampling interval), the
normalized weights that `smoothing_b` applies in the convolution sum
exactly to 1. -/
theorem kernel_sum_one (width ddt : ℚ) (hw : 0 < width) (hd : 0 < ddt) :
    (normKernel "gaussian" width ddt).map List.sum = Except.ok 1 ∧
    (normKernel "flat" width ddt).map List.sum = Except.ok 1 := by
  constructor
  · have hS := gaussianWindow_sum_pos width ddt hw hd
    simp only [normKernel, rawWindow_gaussian, Except.map]
    rw [sum_map_mul_right, mul_one_div, div_self (ne_of_gt hS)]
  · have hm : 0 ≤ pyInt (width / 2 / ddt) := pyInt_nonneg _ (by positivity)
    have hL : (0 : ℝ) < (((2 * pyInt (width / 2 / ddt) + 1).toNat : ℕ) : ℝ) := by
      have h1 : 1 ≤ (2 * pyInt (width / 2 / ddt) + 1).toNat := by omega
      exact_mod_cast h1
    simp only [normKernel, rawWindow_flat, Except.map, flatWindow]
    rw [sum_map_mul_right, List.sum_replicate]
    simp only [nsmul_eq_mul, mul_one]
    rw [mul_one_div, div_self (ne_of_gt hL)]

/-- C8 witness: unit kernel-weight sums at the concrete parameters
`width = 1`, `ddt = 1`. -/
theorem kernel_sum_one_witness :
    (0 : ℚ) < 1 ∧
    ((normKernel "gaussian" 1 1).map List.sum = Except.ok 1 ∧
     (normKernel "flat" 1 1).map List.sum = Except.ok 1) :=
  ⟨by norm_num, kernel_sum_one 1 1 (by norm_num) (by norm_num)⟩

/-- C4 counterexample: at `width = 3`, `ddt = 1` the flat window of the code
has `int(3/2)*2 + 1 = 3` samples, while the claimed formula
`2*round(width/2/ddt) + 1` gives `2*round(1.5) + 1 = 5`. -/
theorem flat_kernel_round_ce :
    (rawWindow "flat" 3 1).map List.length = Except.ok 3 ∧
    2 * npRound ((3 : ℚ) / 2 / 1) + 1 = 5 ∧ (3 : ℕ) ≠ 5 := by
  refine ⟨?_, ?_, by decide⟩
  · rw [rawWindow_flat]
    simp only [Except.map, flatWindow, List.length_replicate]
    norm_num [pyInt]
    decide
  · norm_num [npRound]

/-- C4 (amended): for nonnegative width and positive sampling interval, the
flat kernel `smoothing_b` applies has `2*int(width/2/ddt) + 1` weights
(truncating conversion to integer, not rounding) — an odd count — all equal
to the reciprocal of that count (hence normalized to unit sum). -/
theorem flat_kernel_spec (width ddt : ℚ) (hw : 0 ≤ width) (hd : 0 < ddt) :
    normKernel "flat" width ddt =
      Except.ok (List.replicate (2 * (pyInt (width / 2 / ddt)).toNat + 1)
        ((((2 * (pyInt (width / 2 / ddt)).toNat + 1 : ℕ)) : ℝ))⁻¹) ∧
    Odd (2 * (pyInt (width / 2 / ddt)).toNat + 1) := by
  have hm : 0 ≤ pyInt (width / 2 / ddt) := pyInt_nonneg _ (by positivity)
  have hL : (2 * pyInt (width / 2 / ddt) + 1).toNat
      = 2 * (pyInt (width / 2 / ddt)).toNat + 1 := by omega
  refine ⟨?_, odd_two_mul_add_one _⟩
  simp only [normKernel, rawWindow_flat, Except.map, flatWindow, hL]
  rw [List.sum_replicate]
  simp only [nsmul_eq_mul, mul_one]
  rw [List.map_replicate]
  rw [one_mul, one_div]

/-- C4 witness: the amended flat-kernel description at the concrete
parameters `width = 1`, `ddt = 1`. -/
theorem flat_kernel_spec_witness :
    (0 : ℚ) ≤ 1 ∧ (0 : ℚ) < 1 ∧
    (normKernel "flat" 1 1 =
      Except.ok (List.replicate (2 * (pyInt ((1 : ℚ) / 2 / 1)).toNat + 1)
        ((((2 * (pyInt ((1 : ℚ) / 2 / 1)).toNat + 1 : ℕ)) : ℝ))⁻¹) ∧
     Odd (2 * (pyInt ((1 : ℚ) / 2 / 1)).toNat + 1)) :=
  ⟨by norm_num, by norm_num, flat_kernel_spec 1 1 (by norm_num) (by norm_num)⟩

lemma convolveFull_length (a v : List ℝ) :
    (convolveFull a v).length = a.length + v.length - 1 := by
  simp [convolveFull]

lemma convolveSame_length (a v : List ℝ) (ha : a ≠ []) (hv : v ≠ []) :
    (convolveSame a v).length = max a.length v.length := by
  have hA : 1 ≤ a.length := List.length_pos.mpr ha
  have hV : 1 ≤ v.length := List.length_pos.mpr hv
  simp only [convolveSame, List.length_take, List.length_drop,
    convolveFull_length]
  have hd2 : (min a.length v.length - 1) / 2 ≤ min a.length v.length - 1 :=
    Nat.div_le_self _ _
  omega

lemma flat_norm_kernel_length (width ddt : ℚ) (hw : 0 ≤ width) (hd : 0 < ddt) :
    ((flatWindow width ddt).map
        (fun v => v * (1 / (flatWindow width ddt).sum))).length
      = 2 * (pyInt (width / 2 / ddt)).toNat + 1 := by
  have hm : 0 ≤ pyInt (width / 2 / ddt) := pyInt_nonneg _ (by positivity)
  simp only [List.length_map, flatWindow, List.length_replicate]
  omega

lemma flat_norm_kernel_ne_nil (width ddt : ℚ) (hw : 0 ≤ width)
    (hd : 0 < ddt) :
    (flatWindow width ddt).map
      (fun v => v * (1 / (flatWindow width ddt).sum)) ≠ [] := by
  intro hcon
  have hlen := congrArg List.length hcon
  rw [flat_norm_kernel_length width ddt hw hd] at hlen
  simp at hlen

/-- C5 counterexample: smoothing the one-sample signal `[1]` with a flat
kernel of width 3 (`ddt = 1`) returns 3 samples, not 1 — numpy same-mode
convolution has `max(len(x), len(kernel))` outputs. -/
theorem smoothing_length_ce :
    (smoothing_b [(1 : ℝ)] "flat" 3 1).map List.length = Except.ok 3 ∧
    (smoothing_b [(1 : ℝ)] "flat" 3 1).map List.length ≠ Except.ok 1 := by
  have hk : ((flatWindow 3 1).map
      (fun v => v * (1 / (flatWindow 3 1).sum))).length = 3 := by
    rw [flat_norm_kernel_length 3 1 (by norm_num) (by norm_num)]
    norm_num [pyInt]
  have h : (smoothing_b [(1 : ℝ)] "flat" 3 1).map List.length =
      Except.ok 3 := by
    simp only [smoothing_b, rawWindow_flat, Except.map]
    rw [convolveSame_length _ _ (by simp)
      (flat_norm_kernel_ne_nil 3 1 (by norm_num) (by norm_num)), hk]
    norm_num
  refine ⟨h, ?_⟩
  rw [h]
  intro hc
  have h31 := Except.ok.inj hc
  norm_num at h31

/-- C5 (amended): for a nonempty input signal, the flat-kernel smoothed
output of `smoothing_b` has `max(len(x), 2*int(width/2/ddt) + 1)` samples —
numpy same-mode convolution returns `max(M, N)` outputs, so the length equals
the input length exactly when the kernel is not longer than the signal. -/
theorem smoothing_flat_length (x : List ℝ) (width ddt : ℚ) (hx : x ≠ [])
    (hw : 0 ≤ width) (hd : 0 < ddt) :
    (smoothing_b x "flat" width ddt).map List.length =
      Except.ok (max x.length (2 * (pyInt (width / 2 / ddt)).toNat + 1)) := by
  simp only [smoothing_b, rawWindow_flat, Except.map]
  rw [convolveSame_length x _ hx (flat_norm_kernel_ne_nil width ddt hw hd),
    flat_norm_kernel_length width ddt hw hd]

/-- C5 witness: the amended length formula at the concrete input `[1, 2]`
with `width = 1`, `ddt = 1`. -/
theorem smoothing_flat_length_witness :
    ([(1 : ℝ), 2] ≠ []) ∧ (0 : ℚ) ≤ 1 ∧ (0 : ℚ) < 1 ∧
    (smoothing_b [(1 : ℝ), 2] "flat" 1 1).map List.length =
      Except.ok (max ([(1 : ℝ), 2].length)
        (2 * (pyInt ((1 : ℚ) / 2 / 1)).toNat + 1)) :=
  ⟨by simp, by norm_num, by norm_num,
    smoothing_flat_length [(1 : ℝ), 2] 1 1 (by simp) (by norm_num)
      (by norm_num)⟩

/-- C10: for `2 ≤ N_mean`, when `N_mean < 30` the function returns the pair
(mean of the `N_mean` window means, half the range of the window means),
each window mean being the mean of `I[i*W : (i+1)*W]` with
`W = len(I) / N_mean`; when `N_mean ≥ 30` the error is instead the
quadrature formula, so the half-range branch is taken exactly when
`N_mean < 30`. -/
theorem standard_error_I_spec (I : List ℝ) (N_mean : ℕ) (_h2 : 2 ≤ N_mean) :
    (N_mean < 30 →
      standard_error_I I N_mean =
        (npMeanR (windowMeans I N_mean),
          (npMax (windowMeans I N_mean) - npMin (windowMeans I N_mean)) / 2)) ∧
    (30 ≤ N_mean →
      (standard_error_I I N_mean).2 =
        Real.sqrt ((((List.range N_mean).map (fun i =>
          npStdR ((I.drop (i * (I.length / N_mean))).take
            (I.length / N_mean)))).map (fun v => v * v)).sum) / N_mean) := by
  constructor
  · intro hlt
    simp only [standard_error_I, windowMeans]
    rw [if_pos hlt]
  · intro hge
    simp only [standard_error_I]
    rw [if_neg (by omega)]
    simp

/-- C10 witness: the window-mean description at the concrete input
`[1, 2, 3, 4]` with `N_mean = 2`. -/
theorem standard_error_I_spec_witness :
    2 ≤ 2 ∧
    ((2 < 30 →
      standard_error_I [(1 : ℝ), 2, 3, 4] 2 =
        (npMeanR (windowMeans [(1 : ℝ), 2, 3, 4] 2),
          (npMax (windowMeans [(1 : ℝ), 2, 3, 4] 2) -
            npMin (windowMeans [(1 : ℝ), 2, 3, 4] 2)) / 2)) ∧
    (30 ≤ 2 →
      (standard_error_I [(1 : ℝ), 2, 3, 4] 2).2 =
        Real.sqrt ((((List.range 2).map (fun i =>
          npStdR (([(1 : ℝ), 2, 3, 4].drop
            (i * ([(1 : ℝ), 2, 3, 4].length / 2))).take
            ([(1 : ℝ), 2, 3, 4].length / 2)))).map (fun v => v * v)).sum) /
          2)) :=
  ⟨by norm_num, standard_error_I_spec [(1 : ℝ), 2, 3, 4] 2 (by norm_num)⟩

/-- C6 witness: the amended description applied to the concrete spike train
with three spikes of neuron 0 and one spike of neuron 1 inside `(0, 1)`. -/
theorem neurons_firing_spec_witness :
    neurons_firing [1/10, 2/10, 3/10, 1/2] [0, 0, 0, 1] 0 1 =
      (npUnique [0, 0, 0, 1]).map (fun ind =>
        ((([(1 : ℚ)/10, 2/10, 3/10, 1/2].zip [0, 0, 0, 1]).filter
            (fun p => p.2 = ind ∧ 0 < p.1 ∧ p.1 < 1)).length : ℚ) /
          (1 - 0)) ∧
    List.Pairwise (· < ·) (npUnique [0, 0, 0, 1]) ∧
    (∀ ind, ind ∈ npUnique [0, 0, 0, 1] ↔ ind ∈ [0, 0, 0, 1]) :=
  neurons_firing_spec [1/10, 2/10, 3/10, 1/2] [0, 0, 0, 1] 0 1
